import Mathlib

/-!
Verification of the git-syncer synchronization pipeline.

This file gives a shallow embedding of the core of the git-syncer program
(`main.go` / the webhook dispatcher) and proves properties of it.

Modelling conventions:
* Go strings are Lean `String`s; single-character `strings.ReplaceAll` is a
  character map over the string's data.
* `filepath.Join` is modelled by `goJoin`, plain `"/"`-separated concatenation.
  This is faithful for the component shapes the program produces (no trailing
  separators, no `.`/`..` segments needing cleaning).
* External collaborators are oracles: the third-party `doublestar.Match` glob
  engine is a parameter `m : Matcher` (an `Except` captures its `(bool, error)`
  result), the filesystem walk is a list of `WalkEntry` observations, the git
  subprocess results are a `GitEnv` record of per-command outcomes, and the
  webhook HTTP send is a function from attempt index (or webhook name) to an
  `Except` outcome.
* Side effects (directory creation, file copies, git commands, log warnings,
  sleeps) are recorded in explicit traces so that "X happens before Y" and
  "X never happens" claims are statable.
* The recursive webhook reference walk is defined with explicit fuel
  (`execGo`); termination of the Go original corresponds to the proved fact
  that some finite fuel always suffices.
-/

namespace GitSyncer

/-! ### String helpers (character-level models of Go stdlib calls) -/

/-- Character map over a string, via its character list. -/
def strMap (f : Char → Char) (s : String) : String := String.mk (s.data.map f)

/-- `strings.ReplaceAll(s, old, new)` for single-character `old`/`new`. -/
def replaceAllChar (s : String) (old new : Char) : String :=
  strMap (fun c => if c = old then new else c) s

/-- `filepath.ToSlash`: backslashes become forward slashes (Windows separator;
on Unix hosts the Go function is the identity). -/
def goToSlash (s : String) : String := replaceAllChar s '\\' '/'

/-- `strings.HasPrefix`-style check, on character lists. -/
def strStartsWith (s p : String) : Bool := p.data.isPrefixOf s.data

/-- `strings.HasSuffix`-style check, on character lists. -/
def strEndsWith (s suf : String) : Bool := suf.data.isSuffixOf s.data

/-- `strings.Contains(s, c)` for a single-character needle. -/
def strContainsChar (s : String) (c : Char) : Bool := s.data.contains c

/-- `s[n:]` for an ASCII prefix of length `n`. -/
def strDrop (s : String) (n : Nat) : String := String.mk (s.data.drop n)

/-- `strings.ToLower` (ASCII-relevant part). -/
def goToLower (s : String) : String := strMap Char.toLower s

/-- `filepath.Join(a, b)` for already-clean components. -/
def goJoin (a b : String) : String := a ++ "/" ++ b

/-- Split a character list on `'/'`. -/
def splitSlash : List Char → List (List Char)
  | [] => [[]]
  | c :: cs =>
    match splitSlash cs with
    | [] => [[]]
    | g :: gs => if c = '/' then [] :: g :: gs else (c :: g) :: gs

/-- `filepath.Base`: the final path component (for the slash-separated
file paths produced by the walk). -/
def goBase (s : String) : String := String.mk ((splitSlash s.data).getLastD [])

/-- `filepath.Dir`: everything before the final component (`"."` when there is
no directory part), for the slash-separated paths produced here. -/
def goDir (s : String) : String :=
  match (splitSlash s.data).dropLast with
  | [] => "."
  | parts => String.mk (List.intercalate ['/'] parts)

/-! ### Data model: `Job`, `User`, repository paths (main.go) -/

/-- The `Job` configuration struct. -/
structure Job where
  Name : String
  Schedule : String
  SourcePath : String
  RemoteURL : String
  Includes : List String
  Excludes : List String
  Webhooks : List String
  Branch : String
  MergeStrategy : String
  RemotePath : String
  KeepStructure : Bool
deriving DecidableEq

/-- The parts of the `User` configuration used by the publish engine. -/
structure User where
  Username : String
  Email : String
deriving DecidableEq

/-- The `GitSyncerDir` constant. -/
def GitSyncerDir : String := ".git-syncer"

/-- `Job.GetRepoPath`: `filepath.Join(".git-syncer", j.Name)`.
Note: the source uses the raw `j.Name` here, with no sanitization. -/
def Job.GetRepoPath (j : Job) : String := goJoin ".git-syncer" j.Name

/-- The characters `sanitizePath` replaces. -/
def pathUnsafeChars : List Char := ['/', '\\', ':', '*', '?', '\"', '<', '>', '|', ' ']

/-- `sanitizePath`: replace each path-unsafe character with `'-'`
(a fold of `strings.ReplaceAll` calls). -/
def sanitizePath (name : String) : String :=
  pathUnsafeChars.foldl (fun s c => replaceAllChar s c '-') name

/-- The directory `initRepo` creates and initializes:
`filepath.Join(currentDir, GitSyncerDir, sanitizePath(job.Name))`. -/
def initRepoDir (currentDir : String) (j : Job) : String :=
  goJoin (goJoin currentDir GitSyncerDir) (sanitizePath j.Name)

/-! ### Pattern matcher: `shouldSync` -/

/-- The external `doublestar.Match` collaborator: given a pattern and a path it
returns either `ok matched` or an error (malformed pattern). -/
abbrev Matcher := String → String → Except String Bool

/-- The source's use of a match result: `err == nil && matched`. -/
def okMatch (m : Matcher) (pat path : String) : Bool :=
  match m pat path with
  | Except.ok b => b
  | Except.error _ => false

/-- `GitSync.shouldSync`: excludes first (any ok-match rejects), then
default-allow on empty includes, then any ok-matching include accepts. -/
def shouldSync (m : Matcher) (path : String) (includes excludes : List String) : Bool :=
  if excludes.any (fun e => okMatch m e path) then false
  else if includes.isEmpty then true
  else includes.any (fun i => okMatch m i path)

/-! ### Sync engine: `validateJob`, `normalizeSourcePath`, `syncFiles` -/

/-- `validateJob`: `remote_path` and `keep_structure` are mutually exclusive. -/
def validateJob (j : Job) : Except String Unit :=
  if j.RemotePath ≠ "" ∧ j.KeepStructure then
    Except.error "remote_path and keep_structure cannot be used together"
  else Except.ok ()

/-- `normalizeSourcePath`: slashes normalized, leading `./` stripped, and a
`/**` (or `**`) suffix added when the path holds no wildcard. -/
def normalizeSourcePath (path : String) : String :=
  let p := goToSlash path
  let p := if strStartsWith p "./" then strDrop p 2 else p
  if strContainsChar p '*' then p
  else if strEndsWith p "/" then p ++ "**"
  else p ++ "/**"

/-- The pattern `syncFiles` matches against:
`normalizeSourcePath(filepath.ToSlash(job.SourcePath))`. -/
def syncPattern (j : Job) : String := normalizeSourcePath (goToSlash j.SourcePath)

/-- One observation delivered to the `filepath.Walk` callback: the visited
path, whether it is a directory, whether the walk reported an access error for
it, and the outcome of `filepath.Rel` (success flag and the slash-normalized
relative path). -/
structure WalkEntry where
  path : String
  isDir : Bool
  accessErr : Bool
  relOk : Bool
  rel : String
deriving DecidableEq

/-- Whether the walk callback appends this entry to `matches`: no access
error, a computable relative path, a successful pattern match, and not a
directory. (Access errors, `Rel` errors and match errors all log a warning and
skip the entry — the callback returns `nil` in every branch.) -/
def matchedFile (m : Matcher) (pattern : String) (e : WalkEntry) : Bool :=
  (!e.accessErr) && e.relOk && okMatch m pattern e.rel && (!e.isDir)

/-- The `matches` slice collected by the walk callback. -/
def collectMatches (m : Matcher) (pattern : String) (entries : List WalkEntry) :
    List WalkEntry :=
  entries.filter (matchedFile m pattern)

/-- Destination path for one matched file (the `switch` in `syncFiles`). -/
def destPath (j : Job) (repoPath : String) (e : WalkEntry) : String :=
  if j.KeepStructure then goJoin repoPath e.rel
  else if j.RemotePath ≠ "" then goJoin (goJoin repoPath j.RemotePath) (goBase e.path)
  else goJoin repoPath (goBase e.path)

/-- Observable side effects of a `syncFiles` run. -/
inductive SyncAction where
  | walk : SyncAction
  | warnNoMatch : SyncAction
  | mkdirAll : String → SyncAction
  | copy : String → String → SyncAction
deriving DecidableEq

/-- `GitSync.syncFiles`: validate, walk (the `filepath.Walk` return value is
the oracle `walkErr`; the callback itself never returns an error), collect
matches, then create directories and copy each match. Per-file mkdir/copy
failures are logged and skipped in the source; no claim depends on them, so
the copy loop is recorded unconditionally. -/
def syncFiles (m : Matcher) (entries : List WalkEntry) (walkErr : Bool) (j : Job) :
    Except String Unit × List SyncAction :=
  match validateJob j with
  | Except.error e => (Except.error e, [])
  | Except.ok _ =>
    let pattern := syncPattern j
    let repoPath := Job.GetRepoPath j
    if walkErr then (Except.error "failed to traverse directory", [SyncAction.walk])
    else
      let found := collectMatches m pattern entries
      if found.isEmpty then (Except.ok (), [SyncAction.walk, SyncAction.warnNoMatch])
      else
        (Except.ok (),
          SyncAction.walk ::
            found.flatMap (fun e =>
              [SyncAction.mkdirAll (goDir (destPath j repoPath e)),
               SyncAction.copy e.path (destPath j repoPath e)]))

/-! ### Publish engine: `commitChanges` and the three push strategies -/

/-- Outcomes of the git subprocess calls `commitChanges` makes, as an oracle:
each field is whether that command exits successfully; `statusOutput` is the
`git status --porcelain` output. -/
structure GitEnv where
  repoExists : Bool
  statusOk : Bool
  statusOutput : String
  addOk : Bool
  configNameOk : Bool
  configEmailOk : Bool
  commitOk : Bool
  fetchOk : Bool
  rebaseOk : Bool
  pushOk : Bool
  forcePushOk : Bool
deriving DecidableEq

/-- The git commands `commitChanges` can issue, for the execution trace. -/
inductive GitCmd where
  | status : GitCmd
  | add : GitCmd
  | configName : GitCmd
  | configEmail : GitCmd
  | commit : GitCmd
  | fetch : GitCmd
  | rebase : GitCmd
  | rebaseAbort : GitCmd
  | push : GitCmd
  | forcePush : GitCmd
deriving DecidableEq

/-- `GitSync.normalPush`: `git push origin <branch>`. -/
def normalPush (env : GitEnv) : Except String Unit × List GitCmd :=
  if env.pushOk then (Except.ok (), [GitCmd.push])
  else (Except.error "git push failed", [GitCmd.push])

/-- `GitSync.forcePush`: `git push -f origin <branch>`. -/
def forcePush (env : GitEnv) : Except String Unit × List GitCmd :=
  if env.forcePushOk then (Except.ok (), [GitCmd.forcePush])
  else (Except.error "git force push failed", [GitCmd.forcePush])

/-- `GitSync.rebaseAndPush`: rebase onto `origin/<branch>`; on failure run
`git rebase --abort` and return the error; on success do a normal push. -/
def rebaseAndPush (env : GitEnv) : Except String Unit × List GitCmd :=
  if env.rebaseOk then
    let r := normalPush env
    (r.1, GitCmd.rebase :: r.2)
  else (Except.error "git rebase failed", [GitCmd.rebase, GitCmd.rebaseAbort])

/-- `GitSync.commitChanges`: existence check, status (clean tree is a no-op
success), stage, scoped identity config, commit, then — when a remote is
configured — fetch (failure only warns) and dispatch on the lower-cased merge
strategy to exactly one of rebase/force/normal push. -/
def commitChanges (env : GitEnv) (_user : User) (j : Job) :
    Except String Unit × List GitCmd :=
  if ¬env.repoExists then (Except.error "repository directory does not exist", [])
  else if ¬env.statusOk then (Except.error "failed to check git status", [GitCmd.status])
  else if env.statusOutput = "" then (Except.ok (), [GitCmd.status])
  else if ¬env.addOk then (Except.error "git add failed", [GitCmd.status, GitCmd.add])
  else if ¬env.configNameOk then
    (Except.error "failed to set user.name", [GitCmd.status, GitCmd.add, GitCmd.configName])
  else if ¬env.configEmailOk then
    (Except.error "failed to set user.email",
      [GitCmd.status, GitCmd.add, GitCmd.configName, GitCmd.configEmail])
  else if ¬env.commitOk then
    (Except.error "git commit failed",
      [GitCmd.status, GitCmd.add, GitCmd.configName, GitCmd.configEmail, GitCmd.commit])
  else if j.RemoteURL = "" then
    (Except.ok (),
      [GitCmd.status, GitCmd.add, GitCmd.configName, GitCmd.configEmail, GitCmd.commit])
  else
    let pre := [GitCmd.status, GitCmd.add, GitCmd.configName, GitCmd.configEmail,
      GitCmd.commit, GitCmd.fetch]
    let r :=
      if goToLower j.MergeStrategy = "rebase" then rebaseAndPush env
      else if goToLower j.MergeStrategy = "force" then forcePush env
      else normalPush env
    (r.1, pre ++ r.2)

/-! ### Webhook dispatcher: retry loop (webhook.go, `executeWebhook`) -/

/-- The retry loop of `executeWebhook` (`for i := 0; i < RetryCount; i++`),
with the HTTP send as an oracle from attempt index to outcome. Returns
(number of attempts made, number of `retryDelay`-second sleeps performed,
result). Falling out of the loop yields
`fmt.Errorf("... failed after %d attempts: %v", RetryCount, lastErr)`,
modelled as `Except.error lastErr` (`none` is Go's nil `lastErr` when
`RetryCount` is 0). -/
def retryGo (send : Nat → Except String Unit) :
    Nat → Nat → Option String → Nat × Nat × Except (Option String) Unit
  | 0, _, lastErr => (0, 0, Except.error lastErr)
  | n + 1, i, _ =>
    match send i with
    | Except.ok _ => (1, 0, Except.ok ())
    | Except.error e =>
      let r := retryGo send n (i + 1) (some e)
      (r.1 + 1, r.2.1 + 1, r.2.2)

/-- `executeWebhook`'s attempt/sleep/outcome behavior for a given
`retryCount` (the loop starts at attempt index 0 with `lastErr = nil`). -/
def executeWebhookAttempts (send : Nat → Except String Unit) (retryCount : Nat) :
    Nat × Nat × Except (Option String) Unit :=
  retryGo send retryCount 0 none

/-- A send that fails on every attempt. -/
def allFailSend : Nat → Except String Unit :=
  fun _ => Except.error "connection refused"

/-! ### Webhook dispatcher: reference resolution (webhook.go) -/

/-- The fields of `WebhookConfig` the reference walk depends on; the HTTP
execution of one webhook (template + request + retries) is the `send` oracle. -/
structure WebhookCfg where
  name : String
  trigger : String
  references : List String
deriving DecidableEq

/-- Lookup in the `wm.webhooks` registry map. -/
def lookupWebhook (reg : List WebhookCfg) (n : String) : Option WebhookCfg :=
  reg.find? (fun c => c.name == n)

/-- The trigger gate of `executeWebhookWithReferences`. -/
def shouldExecuteHook (w : WebhookCfg) (status : String) : Bool :=
  (w.trigger == "always") || ((w.trigger == "success") && (status == "success")) ||
    ((w.trigger == "failure") && (status == "failure"))

/-- The two recursion shapes of the reference walk: executing one webhook
(`executeWebhookWithReferences`) and the `for _, refName := range References`
loop inside it. -/
inductive ExecCall where
  | hook : WebhookCfg → ExecCall
  | refs : List String → ExecCall

/-- The recursive reference walk, fuel-indexed. State: the `executed` visited
set (Go's shared mutable map, threaded). Result: `none` on fuel exhaustion,
otherwise (final visited set, names actually sent in order, the Go error
value). Mirrors `executeWebhookWithReferences`: visited guard, mark, execute
references first (a failing reference aborts and propagates a wrapped error;
an unregistered name is skipped), then the trigger gate, then the send. -/
def execGo (reg : List WebhookCfg) (status : String) (send : String → Except String Unit) :
    Nat → ExecCall → List String → Option (List String × List String × Except String Unit)
  | 0, _, _ => none
  | fuel + 1, ExecCall.hook w, executed =>
    if executed.contains w.name then some (executed, [], Except.ok ())
    else
      match execGo reg status send fuel (ExecCall.refs w.references) (w.name :: executed) with
      | none => none
      | some (ex2, tr, Except.error e) => some (ex2, tr, Except.error e)
      | some (ex2, tr, Except.ok _) =>
        if shouldExecuteHook w status then some (ex2, tr ++ [w.name], send w.name)
        else some (ex2, tr, Except.ok ())
  | _fuel + 1, ExecCall.refs [], executed => some (executed, [], Except.ok ())
  | fuel + 1, ExecCall.refs (r :: rs), executed =>
    match lookupWebhook reg r with
    | none => execGo reg status send fuel (ExecCall.refs rs) executed
    | some rw =>
      match execGo reg status send fuel (ExecCall.hook rw) executed with
      | none => none
      | some (ex2, tr, Except.error e) =>
        some (ex2, tr, Except.error ("failed to execute referenced webhook " ++ r ++ ": " ++ e))
      | some (ex2, tr, Except.ok _) =>
        match execGo reg status send fuel (ExecCall.refs rs) ex2 with
        | none => none
        | some (ex3, tr2, res) => some (ex3, tr ++ tr2, res)

/-- `executeWebhookWithReferences(webhook, ctx, executed)`. -/
def executeWebhookWithReferences (reg : List WebhookCfg) (status : String)
    (send : String → Except String Unit) (fuel : Nat) (w : WebhookCfg)
    (executed : List String) : Option (List String × List String × Except String Unit) :=
  execGo reg status send fuel (ExecCall.hook w) executed

/-- `WebhookManager.ExecuteWebhooks`: run each top-level webhook with a fresh
visited set, logging (not propagating) failures, and return `nil`. Result:
(failure log lines, concatenated send trace, the Go return value). -/
def ExecuteWebhooks (reg : List WebhookCfg) (status : String)
    (send : String → Except String Unit) (fuel : Nat) :
    List WebhookCfg → Option (List String × List String × Except String Unit)
  | [] => some ([], [], Except.ok ())
  | w :: ws =>
    match executeWebhookWithReferences reg status send fuel w [] with
    | none => none
    | some (_, tr, res) =>
      match ExecuteWebhooks reg status send fuel ws with
      | none => none
      | some (logs, trs, r) =>
        let logs2 :=
          match res with
          | Except.error e => ("Failed to execute webhook " ++ w.name ++ ": " ++ e) :: logs
          | Except.ok _ => logs
        some (logs2, tr ++ trs, r)

/-- Number of registered webhooks not yet in the visited set (the measure that
makes the Go recursion terminate). -/
def unvisited (reg : List WebhookCfg) (executed : List String) : Nat :=
  reg.countP (fun c => !(executed.contains c.name))

/-! ### Concrete sample data used by closed statements and witnesses -/

/-- A job configuration with the given name and all other fields empty. -/
def jobNamed (n : String) : Job :=
  { Name := n, Schedule := "", SourcePath := "", RemoteURL := "", Includes := [],
    Excludes := [], Webhooks := [], Branch := "", MergeStrategy := "", RemotePath := "",
    KeepStructure := false }

/-- A rebase-strategy job with a remote configured. -/
def jobRebase : Job :=
  { jobNamed "backup" with RemoteURL := "https://example.com/r.git", MergeStrategy := "rebase" }

/-- A job with both `remote_path` and `keep_structure` set. -/
def jobBoth : Job :=
  { jobNamed "backup" with RemotePath := "sub/dir", KeepStructure := true }

/-- A git oracle where every command succeeds and the tree is dirty. -/
def envAllOk : GitEnv :=
  { repoExists := true, statusOk := true, statusOutput := " M file.txt",
    addOk := true, configNameOk := true, configEmailOk := true, commitOk := true,
    fetchOk := true, rebaseOk := true, pushOk := true, forcePushOk := true }

/-- `envAllOk` but the rebase fails. -/
def envRebaseFails : GitEnv := { envAllOk with rebaseOk := false }

/-- `envAllOk` but the working tree is clean. -/
def envClean : GitEnv := { envAllOk with statusOutput := "" }

/-- A sample user. -/
def userSample : User := { Username := "alice", Email := "alice@example.com" }

/-- An exact-string matcher used to instantiate matcher-generic theorems. -/
def eqMatcher : Matcher := fun pat path => Except.ok (pat == path)

/-- A matcher that reports every pattern as malformed. -/
def errMatcher : Matcher := fun _ _ => Except.error "syntax error in pattern"

/-- Two webhooks referencing each other (the cycle scenario). -/
def cycleRegistry : List WebhookCfg :=
  [⟨"A", "always", ["B"]⟩, ⟨"B", "always", ["A"]⟩]

/-- A webhook send oracle that always succeeds. -/
def sendOK : String → Except String Unit := fun _ => Except.ok ()

/-- A webhook send oracle that always fails. -/
def sendBoom : String → Except String Unit := fun _ => Except.error "boom"

/-- A walk entry for a regular accessible file. -/
def entryFile (p rel : String) : WalkEntry :=
  { path := p, isDir := false, accessErr := false, relOk := true, rel := rel }

/-! ### Basic lemmas -/

theorem contains_eq_true_iff (l : List String) (a : String) : l.contains a = true ↔ a ∈ l := by
  simp [List.contains, List.elem_iff]

theorem contains_eq_false_iff (l : List String) (a : String) :
    l.contains a = false ↔ a ∉ l := by
  rw [← Bool.not_eq_true, not_iff_not]
  exact contains_eq_true_iff l a

/-! ### Claim C1 — working-copy addressing (code bug) -/

/-- Claim C1: the claim asserts that `initRepo`, `syncFiles` and
`commitChanges` all address the same per-job directory, keyed by the sanitized
job name, including for path-unsafe names. The code contradicts this:
`initRepo` builds `<cwd>/.git-syncer/<sanitizePath(name)>`, while `syncFiles`
and `commitChanges` use `Job.GetRepoPath() = .git-syncer/<raw name>`. For the
job name `"my job"` the two paths differ; they agree exactly when the name is
already sanitized (shown for `"sync-docs"`). -/
theorem repoPath_addressing_mismatch :
    sanitizePath "my job" = "my-job" ∧
    (jobNamed "my job").GetRepoPath = ".git-syncer/my job" ∧
    initRepoDir "/work" (jobNamed "my job") = "/work/.git-syncer/my-job" ∧
    initRepoDir "/work" (jobNamed "my job") ≠ goJoin "/work" (jobNamed "my job").GetRepoPath ∧
    initRepoDir "/work" (jobNamed "sync-docs") =
      goJoin "/work" (jobNamed "sync-docs").GetRepoPath := by
  refine ⟨rfl, rfl, rfl, ?_, rfl⟩
  decide

/-! ### Claim C2 — webhook retry loop (corrected) -/

/-- When every attempt fails, the retry loop makes exactly `n + 1` attempts
for `RetryCount = n + 1`, sleeps after each failed attempt, and falls out of
the loop carrying the last error. -/
theorem retryGo_allFail (send : Nat → Except String Unit) (err : Nat → String)
    (hfail : ∀ i, send i = Except.error (err i)) :
    ∀ (n i : Nat) (last : Option String),
      retryGo send (n + 1) i last = (n + 1, n + 1, Except.error (some (err (i + n)))) := by
  intro n
  induction n with
  | zero =>
    intro i last
    simp [retryGo, hfail i]
  | succ k ih =>
    intro i last
    have harith : i + 1 + k = i + (k + 1) := by omega
    have hstep : retryGo send (k + 1 + 1) i last =
        ((retryGo send (k + 1) (i + 1) (some (err i))).1 + 1,
          (retryGo send (k + 1) (i + 1) (some (err i))).2.1 + 1,
          (retryGo send (k + 1) (i + 1) (some (err i))).2.2) := by
      conv_lhs => rw [retryGo]
      rw [hfail i]
    rw [hstep, ih (i + 1) (some (err i)), harith]

/-- Claim C2 (amended): for a webhook whose HTTP send fails on every attempt
and a positive `retryCount = n + 1`, `executeWebhook` makes `retryCount`
total attempts in all (i.e. `retryCount - 1` retries after the initial
attempt), sleeps `retryDelay` seconds after every failed attempt — including
the final one — and then returns an error wrapping the last attempt's
error. -/
theorem retry_exhausted_behavior (send : Nat → Except String Unit) (err : Nat → String)
    (hfail : ∀ i, send i = Except.error (err i)) (n : Nat) :
    executeWebhookAttempts send (n + 1) = (n + 1, n + 1, Except.error (some (err n))) := by
  unfold executeWebhookAttempts
  rw [retryGo_allFail send err hfail n 0 none]
  simp

/-- Witness for `retry_exhausted_behavior` at `retryCount = 3` with the
always-failing send: 3 attempts, 3 sleeps, last error returned. -/
theorem retry_exhausted_behavior_witness :
    executeWebhookAttempts allFailSend 3 =
      (3, 3, Except.error (some "connection refused")) :=
  retry_exhausted_behavior allFailSend (fun _ => "connection refused") (fun _ => rfl) 2

/-- Counterexample to claim C2 as stated: with `retryCount = 3` and every
send failing, the code makes 3 attempts — not the `1 + 3` the claim's
"retries up to retryCount times after the initial attempt" implies — and it
sleeps 3 times, i.e. once after the final failed attempt as well, not only
between consecutive attempts (which would be `attempts - 1 = 2`). -/
theorem retry_count_counterexample :
    (executeWebhookAttempts allFailSend 3).1 = 3 ∧
    (executeWebhookAttempts allFailSend 3).2.1 = 3 ∧
    (executeWebhookAttempts allFailSend 3).1 ≠ 1 + 3 ∧
    (executeWebhookAttempts allFailSend 3).2.1 ≠ (executeWebhookAttempts allFailSend 3).1 - 1 := by
  decide

/-! ### Claim C3 — rebase strategy never falls back to force push -/

/-- Claim C3: for a job whose merge strategy is `rebase` (the merge-strategy
dispatch of the current `commitChanges`), when the rebase onto
`origin/<branch>` fails the engine aborts the rebase and returns an error;
no force push and no further push is attempted. -/
theorem rebase_failure_no_force_fallback (env : GitEnv) (u : User) (j : Job)
    (h1 : env.repoExists = true) (h2 : env.statusOk = true)
    (h3 : env.statusOutput ≠ "") (h4 : env.addOk = true)
    (h5 : env.configNameOk = true) (h6 : env.configEmailOk = true)
    (h7 : env.commitOk = true) (h8 : j.RemoteURL ≠ "")
    (h9 : goToLower j.MergeStrategy = "rebase") (h10 : env.rebaseOk = false) :
    (commitChanges env u j).1 = Except.error "git rebase failed" ∧
    GitCmd.rebaseAbort ∈ (commitChanges env u j).2 ∧
    GitCmd.forcePush ∉ (commitChanges env u j).2 ∧
    GitCmd.push ∉ (commitChanges env u j).2 := by
  simp [commitChanges, rebaseAndPush, h1, h2, h3, h4, h5, h6, h7, h8, h9, h10]

/-- Witness for `rebase_failure_no_force_fallback` on a concrete rebase job
and an oracle where only the rebase fails. -/
theorem rebase_failure_no_force_fallback_witness :
    (commitChanges envRebaseFails userSample jobRebase).1 =
        Except.error "git rebase failed" ∧
    GitCmd.rebaseAbort ∈ (commitChanges envRebaseFails userSample jobRebase).2 ∧
    GitCmd.forcePush ∉ (commitChanges envRebaseFails userSample jobRebase).2 ∧
    GitCmd.push ∉ (commitChanges envRebaseFails userSample jobRebase).2 :=
  rebase_failure_no_force_fallback envRebaseFails userSample jobRebase rfl rfl
    (by decide) rfl rfl rfl rfl (by decide) (by decide) rfl

/-! ### Claim C5 — `shouldSync` exclude/include semantics -/

/-- Claim C5: an ok-matching exclude rejects unconditionally; with no
matching exclude, an empty include list accepts; otherwise the path is
accepted iff some include pattern ok-matches it. -/
theorem shouldSync_spec (m : Matcher) (path : String) (includes excludes : List String) :
    ((∃ p ∈ excludes, okMatch m p path = true) →
      shouldSync m path includes excludes = false) ∧
    ((∀ p ∈ excludes, okMatch m p path = false) → includes = [] →
      shouldSync m path includes excludes = true) ∧
    ((∀ p ∈ excludes, okMatch m p path = false) → includes ≠ [] →
      (shouldSync m path includes excludes = true ↔
        ∃ p ∈ includes, okMatch m p path = true)) := by
  refine ⟨?_, ?_, ?_⟩
  · intro hex
    have hany : excludes.any (fun e => okMatch m e path) = true :=
      List.any_eq_true.mpr hex
    simp [shouldSync, hany]
  · intro hnone hinc
    have hany : excludes.any (fun e => okMatch m e path) = false :=
      List.any_eq_false.mpr (by intro p hp; simp [hnone p hp])
    simp [shouldSync, hany, hinc]
  · intro hnone hne
    have hany : excludes.any (fun e => okMatch m e path) = false :=
      List.any_eq_false.mpr (by intro p hp; simp [hnone p hp])
    have hie : includes.isEmpty = false := by
      cases includes with
      | nil => exact absurd rfl hne
      | cons a l => rfl
    simp [shouldSync, hany, hie, List.any_eq_true]

/-- Witness for `shouldSync_spec`: an exclude match rejects. -/
theorem shouldSync_spec_witness :
    shouldSync eqMatcher "a.tmp" ["a.txt"] ["a.tmp"] = false :=
  (shouldSync_spec eqMatcher "a.tmp" ["a.txt"] ["a.tmp"]).1
    ⟨"a.tmp", by decide, by decide⟩

/-! ### Claim C6 — `syncFiles` validates before any effect -/

/-- Claim C6: when both `remote_path` and `keep_structure` are set,
`syncFiles` returns the descriptive validation error with an empty effect
trace — no walk, no directory creation, no copy. -/
theorem syncFiles_validation_fail_fast (m : Matcher) (entries : List WalkEntry)
    (walkErr : Bool) (j : Job) (h1 : j.RemotePath ≠ "") (h2 : j.KeepStructure = true) :
    syncFiles m entries walkErr j =
      (Except.error "remote_path and keep_structure cannot be used together", []) := by
  have hv : validateJob j =
      Except.error "remote_path and keep_structure cannot be used together" := by
    simp [validateJob, h1, h2]
  simp [syncFiles, hv]

/-- Witness for `syncFiles_validation_fail_fast` on a concrete job. -/
theorem syncFiles_validation_fail_fast_witness :
    syncFiles eqMatcher [entryFile "/s/a.txt" "s/a.txt"] false jobBoth =
      (Except.error "remote_path and keep_structure cannot be used together", []) :=
  syncFiles_validation_fail_fast eqMatcher [entryFile "/s/a.txt" "s/a.txt"] false
    jobBoth (by decide) rfl

/-! ### Claim C7 — clean tree is a successful no-op commit -/

/-- Claim C7: when the repository exists and `git status --porcelain` reports
an empty output, `commitChanges` returns success having only run the status
query — no stage, commit, push or force push. -/
theorem commitChanges_clean_noop (env : GitEnv) (u : User) (j : Job)
    (h1 : env.repoExists = true) (h2 : env.statusOk = true)
    (h3 : env.statusOutput = "") :
    commitChanges env u j = (Except.ok (), [GitCmd.status]) ∧
    GitCmd.add ∉ (commitChanges env u j).2 ∧
    GitCmd.commit ∉ (commitChanges env u j).2 ∧
    GitCmd.push ∉ (commitChanges env u j).2 ∧
    GitCmd.forcePush ∉ (commitChanges env u j).2 := by
  simp [commitChanges, h1, h2, h3]

/-- Witness for `commitChanges_clean_noop` on the clean-tree oracle. -/
theorem commitChanges_clean_noop_witness :
    commitChanges envClean userSample jobRebase = (Except.ok (), [GitCmd.status]) ∧
    GitCmd.add ∉ (commitChanges envClean userSample jobRebase).2 ∧
    GitCmd.commit ∉ (commitChanges envClean userSample jobRebase).2 ∧
    GitCmd.push ∉ (commitChanges envClean userSample jobRebase).2 ∧
    GitCmd.forcePush ∉ (commitChanges envClean userSample jobRebase).2 :=
  commitChanges_clean_noop envClean userSample jobRebase rfl rfl rfl

/-! ### Claim C8 — an empty sync is a success -/

/-- Claim C8: a completed walk with zero matching files makes `syncFiles`
log a warning and return `nil` — the trace is the walk plus the warning, the
result is success, and no copy happens. -/
theorem syncFiles_empty_match_ok (m : Matcher) (entries : List WalkEntry) (j : Job)
    (hval : validateJob j = Except.ok ())
    (hnone : collectMatches m (syncPattern j) entries = []) :
    syncFiles m entries false j =
      (Except.ok (), [SyncAction.walk, SyncAction.warnNoMatch]) := by
  simp [syncFiles, hval, hnone]

/-- Witness for `syncFiles_empty_match_ok` on an empty walk. -/
theorem syncFiles_empty_match_ok_witness :
    syncFiles eqMatcher [] false (jobNamed "docs") =
      (Except.ok (), [SyncAction.walk, SyncAction.warnNoMatch]) :=
  syncFiles_empty_match_ok eqMatcher [] (jobNamed "docs") rfl rfl

/-! ### Claim C9 — malformed patterns are non-matches, never aborts -/

/-- Claim C9: a pattern on which the glob engine errors behaves as a
non-match. In `shouldSync` (which cannot return an error by type) a malformed
exclude or include contributes nothing to the decision; in the `syncFiles`
walk, an entry whose pattern match errors is skipped (with a warning) and the
rest of the sync pass is unchanged — the pass is never aborted. -/
theorem malformed_pattern_nonmatch :
    (∀ (m : Matcher) (pat path msg : String),
        m pat path = Except.error msg → okMatch m pat path = false) ∧
    (∀ (m : Matcher) (path bad msg : String) (includes excludes : List String),
        m bad path = Except.error msg →
        shouldSync m path includes (bad :: excludes) =
          shouldSync m path includes excludes) ∧
    (∀ (m : Matcher) (path bad msg : String) (includes excludes : List String),
        m bad path = Except.error msg → includes ≠ [] →
        shouldSync m path (bad :: includes) excludes =
          shouldSync m path includes excludes) ∧
    (∀ (m : Matcher) (e : WalkEntry) (msg : String) (xs ys : List WalkEntry)
        (walkErr : Bool) (j : Job),
        m (syncPattern j) e.rel = Except.error msg →
        syncFiles m (xs ++ e :: ys) walkErr j = syncFiles m (xs ++ ys) walkErr j) := by
  refine ⟨?_, ?_, ?_, ?_⟩
  · intro m pat path msg h
    simp [okMatch, h]
  · intro m path bad msg includes excludes h
    have hb : okMatch m bad path = false := by simp [okMatch, h]
    simp [shouldSync, hb]
  · intro m path bad msg includes excludes h hne
    have hb : okMatch m bad path = false := by simp [okMatch, h]
    have hie : includes.isEmpty = false := by
      cases includes with
      | nil => exact absurd rfl hne
      | cons a l => rfl
    simp [shouldSync, hb, hie]
  · intro m e msg xs ys walkErr j h
    have hme : matchedFile m (syncPattern j) e = false := by
      simp [matchedFile, okMatch, h]
    have hcm : collectMatches m (syncPattern j) (xs ++ e :: ys) =
        collectMatches m (syncPattern j) (xs ++ ys) := by
      simp [collectMatches, List.filter_append, List.filter_cons, hme]
    simp [syncFiles, hcm]

/-- Witness for `malformed_pattern_nonmatch`: with an always-erroring glob
engine, dropping the erroring entry leaves the sync pass unchanged. -/
theorem malformed_pattern_nonmatch_witness :
    syncFiles errMatcher [entryFile "/s/a.txt" "s/a.txt"] false (jobNamed "docs") =
      syncFiles errMatcher [] false (jobNamed "docs") :=
  malformed_pattern_nonmatch.2.2.2 errMatcher (entryFile "/s/a.txt" "s/a.txt")
    "syntax error in pattern" [] [] false (jobNamed "docs") rfl

/-! ### Claim C4 — reference-walk machinery -/

/-- Structural invariants of the reference walk: the visited set only grows,
the send trace has no duplicates, and every sent name was freshly visited
during this call (it ends up in the final visited set and was not in the
initial one). -/
theorem execGo_invariants (reg : List WebhookCfg) (status : String)
    (send : String → Except String Unit) :
    ∀ (fuel : Nat) (call : ExecCall) (executed ex2 trace : List String)
      (res : Except String Unit),
      execGo reg status send fuel call executed = some (ex2, trace, res) →
      (∀ n, n ∈ executed → n ∈ ex2) ∧ trace.Nodup ∧
        (∀ n ∈ trace, n ∈ ex2 ∧ n ∉ executed) := by
  intro fuel
  induction fuel with
  | zero =>
    intro call ex ex2 tr res h
    simp [execGo] at h
  | succ fuel ih =>
    intro call ex ex2 tr res h
    cases call with
    | hook w =>
      simp only [execGo] at h
      split at h
      · rename_i hc
        simp only [Option.some.injEq, Prod.mk.injEq] at h
        obtain ⟨rfl, rfl, rfl⟩ := h
        exact ⟨fun n hn => hn, List.nodup_nil, by simp⟩
      · rename_i hc
        have hwmem : w.name ∉ ex := by
          intro hx
          exact hc ((contains_eq_true_iff ex w.name).mpr hx)
        split at h
        · simp at h
        · rename_i exA trA e heq
          obtain ⟨hextA, hndA, hfrA⟩ := ih _ _ _ _ _ heq
          simp only [Option.some.injEq, Prod.mk.injEq] at h
          obtain ⟨rfl, rfl, rfl⟩ := h
          refine ⟨fun n hn => hextA n (List.mem_cons_of_mem _ hn), hndA, ?_⟩
          intro n hn
          exact ⟨(hfrA n hn).1, fun hx => (hfrA n hn).2 (List.mem_cons_of_mem _ hx)⟩
        · rename_i exA trA v heq
          obtain ⟨hextA, hndA, hfrA⟩ := ih _ _ _ _ _ heq
          split at h
          · rename_i hse
            simp only [Option.some.injEq, Prod.mk.injEq] at h
            obtain ⟨rfl, rfl, rfl⟩ := h
            refine ⟨fun n hn => hextA n (List.mem_cons_of_mem _ hn), ?_, ?_⟩
            · refine List.Nodup.append hndA (List.nodup_singleton _) ?_
              intro x hx1 hx2
              have hxw : x = w.name := by simpa using hx2
              subst hxw
              exact (hfrA _ hx1).2 (List.mem_cons_self _ _)
            · intro n hn
              rcases List.mem_append.mp hn with h1 | h1
              · exact ⟨(hfrA n h1).1, fun hx => (hfrA n h1).2 (List.mem_cons_of_mem _ hx)⟩
              · have hnw : n = w.name := by simpa using h1
                subst hnw
                exact ⟨hextA _ (List.mem_cons_self _ _), hwmem⟩
          · rename_i hse
            simp only [Option.some.injEq, Prod.mk.injEq] at h
            obtain ⟨rfl, rfl, rfl⟩ := h
            refine ⟨fun n hn => hextA n (List.mem_cons_of_mem _ hn), hndA, ?_⟩
            intro n hn
            exact ⟨(hfrA n hn).1, fun hx => (hfrA n hn).2 (List.mem_cons_of_mem _ hx)⟩
    | refs refs =>
      cases refs with
      | nil =>
        simp only [execGo, Option.some.injEq, Prod.mk.injEq] at h
        obtain ⟨rfl, rfl, rfl⟩ := h
        exact ⟨fun n hn => hn, List.nodup_nil, by simp⟩
      | cons r rs =>
        simp only [execGo] at h
        split at h
        · -- unregistered reference name: skip to the rest of the list
          exact ih (ExecCall.refs rs) ex ex2 tr res h
        · rename_i rw2 hlk
          split at h
          · simp at h
          · rename_i exA trA e heq
            obtain ⟨hextA, hndA, hfrA⟩ := ih _ _ _ _ _ heq
            simp only [Option.some.injEq, Prod.mk.injEq] at h
            obtain ⟨rfl, rfl, rfl⟩ := h
            exact ⟨hextA, hndA, hfrA⟩
          · rename_i exA trA v heq
            obtain ⟨hextA, hndA, hfrA⟩ := ih _ _ _ _ _ heq
            split at h
            · simp at h
            · rename_i exB trB resB heq2
              obtain ⟨hextB, hndB, hfrB⟩ := ih _ _ _ _ _ heq2
              simp only [Option.some.injEq, Prod.mk.injEq] at h
              obtain ⟨rfl, rfl, rfl⟩ := h
              refine ⟨fun n hn => hextB n (hextA n hn), ?_, ?_⟩
              · refine List.Nodup.append hndA hndB ?_
                intro x hx1 hx2
                exact (hfrB x hx2).2 ((hfrA x hx1).1)
              · intro n hn
                rcases List.mem_append.mp hn with h1 | h1
                · exact ⟨hextB n (hfrA n h1).1, (hfrA n h1).2⟩
                · exact ⟨(hfrB n h1).1, fun hx => (hfrB n h1).2 (hextA n hx)⟩

/-- Adding fuel preserves a completed reference walk and its result. -/
theorem execGo_fuel_mono (reg : List WebhookCfg) (status : String)
    (send : String → Except String Unit) :
    ∀ (fuel : Nat) (call : ExecCall) (executed : List String)
      (out : List String × List String × Except String Unit),
      execGo reg status send fuel call executed = some out →
      execGo reg status send (fuel + 1) call executed = some out := by
  intro fuel
  induction fuel with
  | zero =>
    intro call ex out h
    simp [execGo] at h
  | succ fuel ih =>
    intro call ex out h
    cases call with
    | hook w =>
      conv_lhs => rw [execGo]
      simp only [execGo] at h
      split at h
      · rename_i hc
        rw [if_pos hc]
        exact h
      · rename_i hc
        rw [if_neg hc]
        split at h
        · simp at h
        · rename_i exA trA e heq
          rw [ih _ _ _ heq]
          exact h
        · rename_i exA trA v heq
          rw [ih _ _ _ heq]
          exact h
    | refs refs =>
      cases refs with
      | nil =>
        conv_lhs => rw [execGo]
        simp only [execGo] at h
        exact h
      | cons r rs =>
        conv_lhs => rw [execGo]
        simp only [execGo] at h
        split at h
        · exact ih _ _ _ h
        · rename_i rw2 hlk
          split at h
          · simp at h
          · rename_i exA trA e heq
            rw [ih _ _ _ heq]
            exact h
          · rename_i exA trA v heq
            rw [ih _ _ _ heq]
            show (match execGo reg status send (fuel + 1) (ExecCall.refs rs) exA with
              | none => none
              | some (ex3, tr2, res) => some (ex3, trA ++ tr2, res)) = some out
            split at h
            · simp at h
            · rename_i exB trB resB heq2
              rw [ih _ _ _ heq2]
              exact h

/-- Fuel monotonicity, `≤` form. -/
theorem execGo_fuel_le (reg : List WebhookCfg) (status : String)
    (send : String → Except String Unit) {fuel fuel' : Nat} (hle : fuel ≤ fuel')
    (call : ExecCall) (executed : List String)
    (out : List String × List String × Except String Unit)
    (h : execGo reg status send fuel call executed = some out) :
    execGo reg status send fuel' call executed = some out := by
  induction hle with
  | refl => exact h
  | step _ ih2 => exact execGo_fuel_mono reg status send _ call executed out ih2

/-- A name fails the visited check exactly when it is not in the list. -/
theorem bnot_contains_eq_true (l : List String) (a : String) :
    ((!(l.contains a)) = true) ↔ a ∉ l := by
  rw [Bool.not_eq_true']
  exact contains_eq_false_iff l a

/-- Marking more names visited cannot increase the number of unvisited
registered webhooks. -/
theorem unvisited_le_of_subset (reg : List WebhookCfg) (ex ex2 : List String)
    (h : ∀ n, n ∈ ex → n ∈ ex2) : unvisited reg ex2 ≤ unvisited reg ex := by
  unfold unvisited
  induction reg with
  | nil => simp
  | cons c cs ih =>
    rw [List.countP_cons, List.countP_cons]
    split
    · split
      · omega
      · rename_i h2 h1
        exact absurd ((bnot_contains_eq_true _ _).mpr
          (fun hx => ((bnot_contains_eq_true _ _).mp h2) (h _ hx))) h1
    · split
      · omega
      · omega

/-- Visiting a registered, not-yet-visited webhook strictly decreases the
number of unvisited registered webhooks: the measure behind termination. -/
theorem unvisited_lt_cons (reg : List WebhookCfg) (ex : List String) (c : WebhookCfg)
    (hin : c ∈ reg) (hmem : c.name ∉ ex) :
    unvisited reg (c.name :: ex) < unvisited reg ex := by
  induction reg with
  | nil => cases hin
  | cons d ds ih =>
    unfold unvisited
    rw [List.countP_cons, List.countP_cons]
    rcases List.mem_cons.mp hin with rfl | htail
    · have hmono : unvisited ds (c.name :: ex) ≤ unvisited ds ex :=
        unvisited_le_of_subset ds ex (c.name :: ex) (fun n hn => List.mem_cons_of_mem _ hn)
      unfold unvisited at hmono
      split
      · rename_i h2
        exact absurd (List.mem_cons_self _ _) ((bnot_contains_eq_true _ _).mp h2)
      · split
        · omega
        · rename_i h2 h1
          exact absurd ((bnot_contains_eq_true _ _).mpr hmem) h1
    · have hlt := ih htail
      unfold unvisited at hlt
      split
      · split
        · omega
        · rename_i h2 h1
          refine absurd ((bnot_contains_eq_true _ _).mpr ?_) h1
          intro hx
          exact ((bnot_contains_eq_true _ _).mp h2) (List.mem_cons_of_mem _ hx)
      · split
        · omega
        · omega

/-- Totality of the reference walk: for every registry, reference graph and
starting state some finite fuel completes the walk — the Lean rendering of
"the Go recursion terminates". Strong induction on the number of unvisited
registered webhooks. -/
theorem execGo_total (reg : List WebhookCfg) (status : String)
    (send : String → Except String Unit) :
    ∀ (u : Nat),
      (∀ (refs executed : List String), unvisited reg executed ≤ u →
        ∃ fuel out, execGo reg status send fuel (ExecCall.refs refs) executed = some out) ∧
      (∀ (w : WebhookCfg) (executed : List String), unvisited reg executed ≤ u →
        ∃ fuel out, execGo reg status send fuel (ExecCall.hook w) executed = some out) := by
  intro u
  induction u using Nat.strong_induction_on with
  | _ u ih =>
    have hrefs : ∀ (refs executed : List String), unvisited reg executed ≤ u →
        ∃ fuel out, execGo reg status send fuel (ExecCall.refs refs) executed = some out := by
      intro refs
      induction refs with
      | nil =>
        intro ex _
        exact ⟨1, (ex, [], Except.ok ()), rfl⟩
      | cons r rs ihr =>
        intro ex hu
        cases hlk : lookupWebhook reg r with
        | none =>
          obtain ⟨f, out, hf⟩ := ihr ex hu
          refine ⟨f + 1, out, ?_⟩
          simp [execGo, hlk, hf]
        | some rw2 =>
          have hhead : ∃ f o, execGo reg status send f (ExecCall.hook rw2) ex = some o := by
            by_cases hmem : rw2.name ∈ ex
            · refine ⟨1, (ex, [], Except.ok ()), ?_⟩
              have hct : ex.contains rw2.name = true := (contains_eq_true_iff _ _).mpr hmem
              simp [execGo, hct, hmem]
            · have hin : rw2 ∈ reg := List.mem_of_find?_eq_some hlk
              have hlt : unvisited reg (rw2.name :: ex) < unvisited reg ex :=
                unvisited_lt_cons reg ex rw2 hin hmem
              obtain ⟨f1, o1, hf1⟩ :=
                (ih (unvisited reg (rw2.name :: ex)) (lt_of_lt_of_le hlt hu)).1
                  rw2.references (rw2.name :: ex) (le_refl _)
              obtain ⟨exA, trA, resA⟩ := o1
              have hcf : ex.contains rw2.name = false := (contains_eq_false_iff _ _).mpr hmem
              cases resA with
              | error e =>
                refine ⟨f1 + 1, (exA, trA, Except.error e), ?_⟩
                simp [execGo, hcf, hf1, hmem]
              | ok v =>
                by_cases hse : shouldExecuteHook rw2 status = true
                · refine ⟨f1 + 1, (exA, trA ++ [rw2.name], send rw2.name), ?_⟩
                  simp [execGo, hcf, hf1, hse, hmem]
                · have hse2 : shouldExecuteHook rw2 status = false := by
                    simp only [Bool.not_eq_true] at hse
                    exact hse
                  refine ⟨f1 + 1, (exA, trA, Except.ok ()), ?_⟩
                  simp [execGo, hcf, hf1, hse2, hmem]
          obtain ⟨f1, o1, hf1⟩ := hhead
          obtain ⟨exA, trA, resA⟩ := o1
          have hshrink : ∀ n, n ∈ ex → n ∈ exA :=
            (execGo_invariants reg status send f1 (ExecCall.hook rw2) ex exA trA resA hf1).1
          have hu2 : unvisited reg exA ≤ u :=
            le_trans (unvisited_le_of_subset reg ex exA hshrink) hu
          obtain ⟨f2, o2, hf2⟩ := ihr exA hu2
          obtain ⟨exB, trB, resB⟩ := o2
          have hf1m := execGo_fuel_le reg status send (le_max_left f1 f2) _ _ _ hf1
          have hf2m := execGo_fuel_le reg status send (le_max_right f1 f2) _ _ _ hf2
          cases resA with
          | error e =>
            refine ⟨max f1 f2 + 1,
              (exA, trA,
                Except.error ("failed to execute referenced webhook " ++ r ++ ": " ++ e)), ?_⟩
            simp [execGo, hlk, hf1m]
          | ok v =>
            refine ⟨max f1 f2 + 1, (exB, trA ++ trB, resB), ?_⟩
            simp [execGo, hlk, hf1m, hf2m]
    have hhook : ∀ (w : WebhookCfg) (executed : List String), unvisited reg executed ≤ u →
        ∃ fuel out, execGo reg status send fuel (ExecCall.hook w) executed = some out := by
      intro w ex hu
      by_cases hmem : w.name ∈ ex
      · refine ⟨1, (ex, [], Except.ok ()), ?_⟩
        have hct : ex.contains w.name = true := (contains_eq_true_iff _ _).mpr hmem
        simp [execGo, hct, hmem]
      · have hcf : ex.contains w.name = false := (contains_eq_false_iff _ _).mpr hmem
        have hu1 : unvisited reg (w.name :: ex) ≤ u :=
          le_trans (unvisited_le_of_subset reg ex (w.name :: ex)
            (fun n hn => List.mem_cons_of_mem _ hn)) hu
        obtain ⟨f1, o1, hf1⟩ := hrefs w.references (w.name :: ex) hu1
        obtain ⟨exA, trA, resA⟩ := o1
        cases resA with
        | error e =>
          refine ⟨f1 + 1, (exA, trA, Except.error e), ?_⟩
          simp [execGo, hcf, hf1, hmem]
        | ok v =>
          by_cases hse : shouldExecuteHook w status = true
          · refine ⟨f1 + 1, (exA, trA ++ [w.name], send w.name), ?_⟩
            simp [execGo, hcf, hf1, hse, hmem]
          · have hse2 : shouldExecuteHook w status = false := by
              simp only [Bool.not_eq_true] at hse
              exact hse
            refine ⟨f1 + 1, (exA, trA, Except.ok ()), ?_⟩
            simp [execGo, hcf, hf1, hse2, hmem]
    exact ⟨hrefs, hhook⟩

/-! ### Claim C4 — at-most-once execution, cycle safety, termination -/

/-- Counterexample to claim C4 as stated: the claim scopes "executed at most
once" to one top-level `ExecuteWebhooks` call, but `ExecuteWebhooks` creates a
fresh `executed` set (`make(map[string]bool)`) for each webhook of its list.
With the cyclic registry `A ↔ B` and the top-level list `[A, B]`, the single
`ExecuteWebhooks` call sends `["B", "A", "A", "B"]`: each of `A` and `B` is
sent twice, not at most once. -/
theorem executeWebhooks_at_most_once_counterexample :
    ExecuteWebhooks cycleRegistry "success" sendOK 8
        [⟨"A", "always", ["B"]⟩, ⟨"B", "always", ["A"]⟩] =
      some ([], ["B", "A", "A", "B"], Except.ok ()) ∧
    List.count "A" ["B", "A", "A", "B"] = 2 ∧
    List.count "B" ["B", "A", "A", "B"] = 2 ∧
    ¬ List.count "A" ["B", "A", "A", "B"] ≤ 1 := by
  refine ⟨rfl, rfl, rfl, ?_⟩
  decide

/-- Claim C4 (amended): the visited set is scoped to one top-level webhook's
reference walk, not to the whole `ExecuteWebhooks` call. Amended statement:
(1) `executeWebhookWithReferences` terminates on every reference graph —
some finite fuel always completes the walk; (2) within one such walk (one
top-level webhook, as started by `ExecuteWebhooks` with a fresh visited set)
every webhook is sent at most once (the send trace has no duplicate names);
(3) in the concrete two-cycle `A ↔ B`, triggering `A` alone executes each of
`A` and `B` exactly once and `ExecuteWebhooks` completes. A webhook reachable
from several top-level webhooks of the same call runs once per top-level
webhook. -/
theorem webhook_cycle_safety :
    (∀ (reg : List WebhookCfg) (status : String) (send : String → Except String Unit)
        (w : WebhookCfg) (executed : List String),
        ∃ fuel out,
          executeWebhookWithReferences reg status send fuel w executed = some out) ∧
    (∀ (reg : List WebhookCfg) (status : String) (send : String → Except String Unit)
        (fuel : Nat) (w : WebhookCfg) (executed ex2 trace : List String)
        (res : Except String Unit),
        executeWebhookWithReferences reg status send fuel w executed =
          some (ex2, trace, res) → trace.Nodup) ∧
    (ExecuteWebhooks cycleRegistry "success" sendOK 8 [⟨"A", "always", ["B"]⟩] =
        some ([], ["B", "A"], Except.ok ()) ∧
      List.count "A" ["B", "A"] = 1 ∧ List.count "B" ["B", "A"] = 1) := by
  refine ⟨?_, ?_, rfl, rfl, rfl⟩
  · intro reg status send w ex
    exact (execGo_total reg status send (unvisited reg ex)).2 w ex (le_refl _)
  · intro reg status send fuel w ex ex2 tr res h
    exact (execGo_invariants reg status send fuel (ExecCall.hook w) ex ex2 tr res h).2.1

/-- Witness for `webhook_cycle_safety`: the cycle run's send trace,
`["B", "A"]`, has no duplicates. -/
theorem webhook_cycle_safety_witness : (["B", "A"] : List String).Nodup :=
  webhook_cycle_safety.2.1 cycleRegistry "success" sendOK 8 ⟨"A", "always", ["B"]⟩ []
    ["B", "A"] ["B", "A"] (Except.ok ()) rfl

/-! ### Claim C10 — `ExecuteWebhooks` always returns nil -/

/-- Claim C10: for every registry, status, send oracle, fuel and webhook list,
whenever `ExecuteWebhooks` completes its Go return value is `nil`
(`Except.ok ()`): per-webhook failures are only logged, never propagated. -/
theorem executeWebhooks_returns_nil (reg : List WebhookCfg) (status : String)
    (send : String → Except String Unit) (fuel : Nat) :
    ∀ (whs : List WebhookCfg) (out : List String × List String × Except String Unit),
      ExecuteWebhooks reg status send fuel whs = some out →
      out.2.2 = Except.ok () := by
  intro whs
  induction whs with
  | nil =>
    intro out h
    obtain ⟨a, b, c⟩ := out
    simp only [ExecuteWebhooks, Option.some.injEq, Prod.mk.injEq] at h
    obtain ⟨h1, h2, h3⟩ := h
    exact h3.symm
  | cons w ws ih =>
    intro out h
    obtain ⟨a, b, c⟩ := out
    simp only [ExecuteWebhooks] at h
    cases h1 : executeWebhookWithReferences reg status send fuel w [] with
    | none => rw [h1] at h; simp at h
    | some o1 =>
      obtain ⟨ex1, tr1, res1⟩ := o1
      rw [h1] at h
      cases h2 : ExecuteWebhooks reg status send fuel ws with
      | none => rw [h2] at h; simp at h
      | some o2 =>
        obtain ⟨logs, trs, r⟩ := o2
        rw [h2] at h
        have hr : r = Except.ok () := ih (logs, trs, r) h2
        cases res1 with
        | error e =>
          simp only [Option.some.injEq, Prod.mk.injEq] at h
          obtain ⟨h3, h4, h5⟩ := h
          rw [← h5]
          exact hr
        | ok v =>
          simp only [Option.some.injEq, Prod.mk.injEq] at h
          obtain ⟨h3, h4, h5⟩ := h
          rw [← h5]
          exact hr

/-- Witness for `executeWebhooks_returns_nil`: a webhook whose send fails is
logged and the aggregate call still returns `nil`. -/
theorem executeWebhooks_returns_nil_witness :
    ((["Failed to execute webhook A: boom"], ["A"], Except.ok ()) :
        List String × List String × Except String Unit).2.2 = Except.ok () :=
  executeWebhooks_returns_nil [] "success" sendBoom 5 [⟨"A", "always", []⟩]
    (["Failed to execute webhook A: boom"], ["A"], Except.ok ()) rfl

end GitSyncer
